import Mathlib

/-!
Shallow embedding of the quantitative backtesting core (rust-core) and proofs
about it.  `f64` values are modelled as `ℚ` (the code performs only field
operations on the paths the claims exercise; square roots and real powers,
which occur in diagnostic metric fields only, are handled by modelling their
squares, as noted at each definition).  `u64` timestamps are modelled as `ℕ`.
Fallible Rust functions returning `Result` are modelled with `Except`.
-/

/-- `types::SignalType` (src/rust-core/src/types.rs). -/
inductive SignalType where
  | Buy
  | Sell
  | Hold
deriving DecidableEq, Repr

/-- `types::Signal` (src/rust-core/src/types.rs). -/
structure Signal where
  timestamp : Nat
  signal_type : SignalType
  price : Rat
  strength : Rat
deriving DecidableEq, Repr

/-- `types::OHLCV` (src/rust-core/src/types.rs).  The Rust field `open` is a
Lean keyword, hence `open_`. -/
structure OHLCV where
  timestamp : Nat
  open_ : Rat
  high : Rat
  low : Rat
  close : Rat
  volume : Rat
deriving DecidableEq, Repr

/-- `types::Trade` (src/rust-core/src/types.rs). -/
structure Trade where
  id : Nat
  entry_time : Nat
  exit_time : Option Nat
  entry_price : Rat
  exit_price : Option Rat
  quantity : Rat
  pnl : Option Rat
  commission : Rat
deriving DecidableEq, Repr

/-- `backtest::BacktestConfig` (src/rust-core/src/backtest/mod.rs). -/
structure BacktestConfig where
  initial_capital : Rat
  commission : Rat
  slippage : Rat
  start_date : Nat
  end_date : Nat
deriving DecidableEq, Repr

/-- `backtest::metrics::Trade` (src/rust-core/src/backtest/metrics.rs); the
metrics module has its own trade record with stringly-typed dates. -/
structure MetricsTrade where
  entry_date : String
  exit_date : String
  entry_price : Rat
  exit_price : Rat
  quantity : Rat
  pnl : Rat
deriving DecidableEq, Repr

/-- `metrics::MetricsError` (src/rust-core/src/backtest/metrics.rs). -/
inductive MetricsError where
  | EmptyTrades
  | EmptyEquityCurve
  | InvalidData
  | DivisionByZero
  | InvalidDateRange
deriving DecidableEq, Repr

/-- Error surface of the engine module (src/rust-core/src/backtest/engine.rs).
The Rust code uses `Box<dyn Error>` carrying message strings; each distinct
message/source is modelled as a constructor. -/
inductive Err where
  | emptyData
  | emptyEquityCurve
  | invalidBarHighLow (i : Nat)
  | invalidBarHighOpen (i : Nat)
  | invalidBarHighClose (i : Nat)
  | invalidBarLowOpen (i : Nat)
  | invalidBarLowClose (i : Nat)
  | fastNotLessThanSlow
  | zeroPeriod
  | notEnoughData (needed got : Nat)
  | metricsError (e : MetricsError)
  | noParameters
  | noValidResults
deriving DecidableEq, Repr

/-- `From<types::Trade> for metrics::Trade` (metrics.rs, bottom):
`entry_date = entry_time.to_string()`, `exit_date` maps `None` to `""`,
`exit_price`/`pnl` default to `0.0` via `unwrap_or`. -/
def tradeToMetrics (t : Trade) : MetricsTrade :=
  { entry_date := toString t.entry_time
    exit_date := (t.exit_time.map (fun x => toString x)).getD ""
    entry_price := t.entry_price
    exit_price := t.exit_price.getD 0
    quantity := t.quantity
    pnl := t.pnl.getD 0 }

/-- Reduced `metrics::PerformanceMetrics` (metrics.rs).  The source struct also
carries `annualized_return`, `sharpe_ratio`, `sortino_ratio`, `calmar_ratio`
(computed with `powf`/`sqrt`, which leave `ℚ`), and the diagnostic placeholders
`var_95`, `cvar_95`, `execution_time_ms`, `memory_usage_mb` (all set to
constants by the source).  None of the claims refer to those fields, and no
field can make `calculate_metrics` fail, so they are omitted; every kept field
is computed exactly as in the source. -/
structure PerformanceMetrics where
  total_return : Rat
  max_drawdown : Rat
  win_rate : Rat
  trade_count : Nat
  avg_hold_days : Rat
  volatility : Rat
deriving DecidableEq, Repr

/-- `metrics::validate_input` (metrics.rs lines 354-382).  The NaN/infinity
checks of the source are identically false in the `ℚ` model; the `value < 0.0`
check on the equity curve is kept. -/
def validate_input (trades : List MetricsTrade) (equity_curve : List Rat) :
    Except MetricsError Unit :=
  if trades.isEmpty then .error .EmptyTrades
  else if equity_curve.isEmpty then .error .EmptyEquityCurve
  else if equity_curve.any (fun v => v < 0) then .error .InvalidData
  else .ok ()

/-- Inner loop of `metrics::calculate_returns`: `prev` is `equity_curve[i-1]`;
an element with non-positive predecessor raises `InvalidData`. -/
def returnsGo (prev : Rat) : List Rat → Except MetricsError (List Rat)
  | [] => .ok []
  | v :: rest =>
    if prev ≤ 0 then .error .InvalidData
    else
      match returnsGo v rest with
      | .error e => .error e
      | .ok rs => .ok (((v - prev) / prev) :: rs)

/-- `metrics::calculate_returns` (metrics.rs lines 261-278). -/
def calculate_returns (equity_curve : List Rat) : Except MetricsError (List Rat) :=
  match equity_curve with
  | [] => .ok []
  | [_] => .ok []
  | e0 :: rest => returnsGo e0 rest

/-- Square of `metrics::calculate_volatility` (metrics.rs lines 281-295).  The
source returns `variance.sqrt() * sqrt(252)`; the square root leaves `ℚ`, so
the model carries the square `variance * 252`, which determines the source
value uniquely because the source value is non-negative. -/
def calculate_volatility_sq (returns : List Rat) : Rat :=
  if returns.length < 2 then 0
  else
    let mean := returns.sum / (returns.length : Rat)
    let variance :=
      (returns.map (fun r => (r - mean) ^ 2)).sum / ((returns.length : Rat) - 1)
    variance * 252

/-- `metrics::calculate_max_drawdown` (metrics.rs lines 223-245): running-peak
fold over the whole curve, with a `peak > 0` guard; returns `0.0` for an empty
curve. -/
def mddStep (acc : Rat × Rat) (value : Rat) : Rat × Rat :=
  let peak := if value > acc.1 then value else acc.1
  if peak > 0 then
    let drawdown := (peak - value) / peak
    (peak, if drawdown > acc.2 then drawdown else acc.2)
  else (peak, acc.2)

/-- `metrics::calculate_max_drawdown`, entry point. -/
def calculate_max_drawdown (equity_curve : List Rat) : Rat :=
  match equity_curve with
  | [] => 0
  | e0 :: _ => (equity_curve.foldl mddStep (e0, 0)).2

/-- `metrics::calculate_winning_trades` (metrics.rs lines 299-301). -/
def calculate_winning_trades (trades : List MetricsTrade) : Nat :=
  (trades.filter (fun t => t.pnl > 0)).length

/-- `metrics::parse_date_difference_days` (metrics.rs lines 322-326): the
source is a stub that returns `1.0` for every pair of dates. -/
def parse_date_difference_days (_exit_date _entry_date : String) : Rat := 1

/-- `metrics::calculate_average_hold_time` (metrics.rs lines 305-318). -/
def calculate_average_hold_time (trades : List MetricsTrade) : Rat :=
  if trades.isEmpty then 0
  else
    (trades.map (fun t => parse_date_difference_days t.exit_date t.entry_date)).sum
      / (trades.length : Rat)

/-- `metrics::calculate_metrics` (metrics.rs lines 86-160), restricted to the
fields of the reduced bundle.  Note the source computes
`let volatility = calculate_volatility(&returns)` (used only for the Sharpe
ratio) but then writes the literal `volatility: 0.0` into the returned struct;
the model reproduces that literal `0`. -/
def calculate_metrics (trades : List MetricsTrade) (equity_curve : List Rat)
    (_risk_free_rate : Rat) : Except MetricsError PerformanceMetrics :=
  match validate_input trades equity_curve with
  | .error e => .error e
  | .ok _ =>
    match calculate_returns equity_curve with
    | .error e => .error e
    | .ok _returns =>
      let initial_value := equity_curve.headD 0
      let final_value := equity_curve.getLastD 0
      let total_return := (final_value - initial_value) / initial_value
      let max_drawdown := calculate_max_drawdown equity_curve
      let winning_trades := calculate_winning_trades trades
      let trade_count := trades.length
      let win_rate :=
        if trade_count > 0 then (winning_trades : Rat) / (trade_count : Rat) else 0
      .ok { total_return := total_return
            max_drawdown := max_drawdown
            win_rate := win_rate
            trade_count := trade_count
            avg_hold_days := calculate_average_hold_time trades
            volatility := 0 }

/-- `BacktestResult` (metrics.rs lines 44-51).  `execution_time_ns` is wall
clock, used for diagnostics only; it is modelled as the constant `0`. -/
structure BacktestResult where
  config : BacktestConfig
  metrics : PerformanceMetrics
  trades : List Trade
  final_value : Rat
  execution_time_ns : Nat
deriving DecidableEq, Repr

/-- Mutable state of `BacktestEngine::execute_trades` (engine.rs lines 59-120):
`trades`, `equity_curve`, `current_capital`, `position`, `entry_price`. -/
structure EngineState where
  trades : List Trade
  equity_curve : List Rat
  current_capital : Rat
  position : Rat
  entry_price : Rat
deriving DecidableEq, Repr

/-- Relation used to sort signals: `sorted_signals.sort_by_key(|s| s.timestamp)`
(engine.rs line 74). -/
def sigLe (a b : Signal) : Prop := a.timestamp ≤ b.timestamp

instance : DecidableRel sigLe := fun a b => Nat.decLe a.timestamp b.timestamp

instance : IsTotal Signal sigLe := ⟨fun a b => Nat.le_total a.timestamp b.timestamp⟩

instance : IsTrans Signal sigLe := ⟨fun _ _ _ h h' => Nat.le_trans h h'⟩

/-- Stable sort of signals by timestamp (engine.rs line 74; Rust's
`sort_by_key` is a stable sort, as is insertion sort). -/
def sortSignals (signals : List Signal) : List Signal :=
  signals.insertionSort sigLe

/-- One signal application inside the bar loop (engine.rs lines 85-116).
`sorted` is the full sorted signal list (the `Sell` arm scans it for the first
`Buy` to take the recorded `entry_time` from).  A guarded arm whose guard fails
falls through to the `_ => {}` no-op. -/
def processSignal (cfg : BacktestConfig) (d : OHLCV) (sorted : List Signal)
    (st : EngineState) (s : Signal) : EngineState :=
  match s.signal_type with
  | .Buy =>
    if st.position ≤ 0 then
      let entry_price := d.close * (1 + cfg.slippage)
      let max_quantity := st.current_capital * (95 / 100) / entry_price
      { st with
        entry_price := entry_price
        position := max_quantity
        current_capital :=
          st.current_capital - max_quantity * entry_price * (1 + cfg.commission) }
    else st
  | .Sell =>
    if st.position > 0 then
      let proceeds := st.position * d.close * (1 - cfg.slippage)
      let cap := st.current_capital + proceeds * (1 - cfg.commission)
      let trades :=
        match sorted.find? (fun x => x.signal_type == SignalType.Buy) with
        | some entry_sig =>
          st.trades ++
            [{ id := st.trades.length
               entry_time := entry_sig.timestamp
               exit_time := some d.timestamp
               entry_price := st.entry_price
               exit_price := some d.close
               quantity := st.position
               pnl := some (proceeds - st.position * st.entry_price)
               commission := st.position * st.entry_price * cfg.commission }]
        | none => st.trades
      { st with trades := trades, current_capital := cap, position := 0 }
    else st
  | .Hold => st

/-- One iteration of the bar loop (engine.rs lines 79-117): recompute
mark-to-market capital, append it to the equity curve, then apply every sorted
signal whose timestamp equals the bar's. -/
def processBar (cfg : BacktestConfig) (sorted : List Signal)
    (st : EngineState) (d : OHLCV) : EngineState :=
  let cap := cfg.initial_capital + st.position * (d.close - st.entry_price)
  let st' := { st with current_capital := cap, equity_curve := st.equity_curve ++ [cap] }
  (sorted.filter (fun s => s.timestamp == d.timestamp)).foldl
    (processSignal cfg d sorted) st'

/-- `BacktestEngine::execute_trades` (engine.rs lines 59-120). -/
def execute_trades (cfg : BacktestConfig) (data : List OHLCV)
    (signals : List Signal) : Except Err (List Trade × List Rat) :=
  if data.isEmpty then .error .emptyData
  else
    let sorted := sortSignals signals
    let final :=
      data.foldl (processBar cfg sorted)
        { trades := [], equity_curve := [], current_capital := cfg.initial_capital
          position := 0, entry_price := 0 }
    .ok (final.trades, final.equity_curve)

/-- `BacktestEngine::run` (engine.rs lines 25-56): execute trades, convert the
ledger to metrics trades, compute metrics (risk-free rate `0.0`), assemble the
result; `final_value` is the last equity point, defaulting to the initial
capital. -/
def BacktestEngineRun (cfg : BacktestConfig) (data : List OHLCV)
    (signals : List Signal) : Except Err BacktestResult :=
  match execute_trades cfg data signals with
  | .error e => .error e
  | .ok (trades, equity_curve) =>
    match calculate_metrics (trades.map tradeToMetrics) equity_curve 0 with
    | .error e => .error (.metricsError e)
    | .ok metrics =>
      .ok { config := cfg
            metrics := metrics
            trades := trades
            final_value := equity_curve.getLastD cfg.initial_capital
            execution_time_ns := 0 }

/-- `validate_data` (engine.rs lines 137-167).  The non-finite check of the
source is identically false in the `ℚ` model and is omitted. -/
def validateBar (i : Nat) (d : OHLCV) : Except Err Unit :=
  if d.high < d.low then .error (.invalidBarHighLow i)
  else if d.high < d.open_ then .error (.invalidBarHighOpen i)
  else if d.high < d.close then .error (.invalidBarHighClose i)
  else if d.low > d.open_ then .error (.invalidBarLowOpen i)
  else if d.low > d.close then .error (.invalidBarLowClose i)
  else .ok ()

/-- `validate_data`, main loop over indexed bars. -/
def validateBars : Nat → List OHLCV → Except Err Bool
  | _, [] => .ok true
  | i, d :: rest =>
    match validateBar i d with
    | .error e => .error e
    | .ok _ => validateBars (i + 1) rest

/-- `validate_data` (engine.rs lines 137-167): empty input is an error, then
each bar's OHLC relations are checked in order. -/
def validate_data (data : List OHLCV) : Except Err Bool :=
  if data.isEmpty then .error .emptyData
  else validateBars 0 data

/-- Fold step of `calculate_drawdown` (engine.rs lines 170-190).  Unlike the
metrics variant, there is no `peak > 0` guard (`x / 0 = 0` in the `ℚ` model;
the claims only exercise this on positive curves, where no division by zero
occurs). -/
def ddStep (acc : Rat × Rat) (value : Rat) : Rat × Rat :=
  let peak := if value > acc.1 then value else acc.1
  let drawdown := (peak - value) / peak
  (peak, if drawdown > acc.2 then drawdown else acc.2)

/-- `calculate_drawdown` (engine.rs lines 170-190): errors on an empty curve,
otherwise folds over the whole curve starting from `peak = equity_curve[0]`,
`max_drawdown = 0`. -/
def calculate_drawdown (equity_curve : List Rat) : Except Err Rat :=
  match equity_curve with
  | [] => .error .emptyEquityCurve
  | e0 :: _ => .ok ((equity_curve.foldl ddStep (e0, 0)).2)

/-- `run_backtest` (engine.rs lines 358-373): rejects empty data, validates
bars, then delegates to `BacktestEngine::run`. -/
def run_backtest (signals : List Signal) (stock_data : List OHLCV)
    (cfg : BacktestConfig) : Except Err BacktestResult :=
  if stock_data.isEmpty then .error .emptyData
  else
    match validate_data stock_data with
    | .error e => .error e
    | .ok _ => BacktestEngineRun cfg stock_data signals

deriving instance DecidableEq for Except

/-- `u64::MAX`, used by `run_sma_backtest`'s hard-coded config. -/
def U64_MAX : Nat := 2 ^ 64 - 1

/-- Default bar used to make out-of-range indexing total; every access in the
embedded loops is in range, so the default is never observed. -/
def defaultBar : OHLCV :=
  { timestamp := 0, open_ := 0, high := 0, low := 0, close := 0, volume := 0 }

/-- Value of the `fast_ma`/`slow_ma` arrays of `generate_sma_signals`
(engine.rs lines 243-256): `0.0` below `period`, else the mean of
`close_prices[i - period .. i]` (a window of `period` elements ending at
`i - 1`). -/
def maAt (prices : List Rat) (period : Nat) (i : Nat) : Rat :=
  if period ≤ i then ((prices.drop (i - period)).take period).sum / (period : Rat)
  else 0

/-- One iteration of the crossover loop of `generate_sma_signals` (engine.rs
lines 260-288); the accumulator is `(prev_signal, signals)`. -/
def smaCrossStep (data : List OHLCV) (prices : List Rat) (fast slow : Nat)
    (acc : Option SignalType × List Signal) (i : Nat) :
    Option SignalType × List Signal :=
  let current_fast := maAt prices fast i
  let current_slow := maAt prices slow i
  let prev_fast := maAt prices fast (i - 1)
  let prev_slow := maAt prices slow (i - 1)
  let signal : Option SignalType :=
    if current_fast > current_slow ∧ prev_fast ≤ prev_slow then some .Buy
    else if current_fast < current_slow ∧ prev_fast ≥ prev_slow then some .Sell
    else none
  match signal with
  | some sig =>
    if some sig ≠ acc.1 then
      (some sig,
        acc.2 ++
          [{ timestamp := (data.getD i defaultBar).timestamp
             signal_type := sig
             price := prices.getD i 0
             strength := 1 }])
    else acc
  | none => acc

/-- `generate_sma_signals` (engine.rs lines 232-291). -/
def generate_sma_signals (data : List OHLCV) (fast_period slow_period : Nat) :
    List Signal :=
  let close_prices := data.map (fun d => d.close)
  ((List.range' slow_period (data.length - slow_period)).foldl
    (smaCrossStep data close_prices fast_period slow_period) (none, [])).2

/-- `run_sma_backtest` (engine.rs lines 193-229): period sanity checks, bar
validation, length check, then an engine run with the hard-coded config
(commission `0.001`, slippage `0.0005`). -/
def run_sma_backtest (data : List OHLCV) (fast_period slow_period : Nat)
    (initial_capital : Rat) : Except Err BacktestResult :=
  if slow_period ≤ fast_period then .error .fastNotLessThanSlow
  else if fast_period = 0 ∨ slow_period = 0 then .error .zeroPeriod
  else
    match validate_data data with
    | .error e => .error e
    | .ok _ =>
      if data.length < slow_period then
        .error (.notEnoughData slow_period data.length)
      else
        let cfg : BacktestConfig :=
          { initial_capital := initial_capital, commission := 1 / 1000
            slippage := 5 / 10000, start_date := 0, end_date := U64_MAX }
        let signals := generate_sma_signals data fast_period slow_period
        BacktestEngineRun cfg data signals

/-- `indicators::moving_average::sma` (moving_average.rs lines 9-34): empty
input or zero period yields an empty vector; otherwise positions `i < period`
repeat `prices[i]` and positions `i ≥ period` hold the mean of the sliding
window `prices[i + 1 - period ..= i]` (the source maintains the window sum
incrementally; the closed window-mean form is its telescoped value). -/
def sma (prices : List Rat) (period : Nat) : List Rat :=
  if prices.isEmpty ∨ period = 0 then []
  else
    (List.range prices.length).map (fun i =>
      if i < period then prices.getD i 0
      else ((prices.drop (i + 1 - period)).take period).sum / (period : Rat))

/-- Recurrence of `indicators::moving_average::ema` (moving_average.rs lines
48-50): `out[i] = (prices[i] - out[i-1]) * multiplier + out[i-1]`. -/
def emaGo (multiplier : Rat) (prev : Rat) : List Rat → List Rat
  | [] => []
  | p :: rest =>
    let cur := (p - prev) * multiplier + prev
    cur :: emaGo multiplier cur rest

/-- `indicators::moving_average::ema` (moving_average.rs lines 38-53). -/
def ema (prices : List Rat) (period : Nat) : List Rat :=
  match prices with
  | [] => []
  | p0 :: rest =>
    if period = 0 then []
    else p0 :: emaGo (2 / ((period : Rat) + 1)) p0 rest

/-- Recurrence of `indicators::obv::obv` (obv.rs lines 14-21) over paired
`(close[i], volume[i])`; `u64` volumes are modelled in `ℚ` (the source casts
them to `f64`). -/
def obvGo (prev prevClose : Rat) : List (Rat × Rat) → List Rat
  | [] => []
  | (c, v) :: rest =>
    let cur :=
      if c > prevClose then prev + v
      else if c < prevClose then prev - v
      else prev
    cur :: obvGo cur c rest

/-- `indicators::obv::obv` (obv.rs lines 7-24).  The source indexes
`volume[i]` in lockstep with `close` and panics when `volume` is shorter; the
model zips the series, which coincides with the source whenever
`volume.length = close.length` (the only case the claims state). -/
def obv (close volume : List Rat) : List Rat :=
  match close with
  | [] => []
  | c0 :: crest =>
    let v0 := volume.headD 0
    v0 :: obvGo v0 c0 (crest.zip (volume.drop 1))

/-- Values enumerated for one `(min, max, step)` range by the `while` loop of
`generate_combinations_recursive` (optimization/mod.rs lines 165-171):
`min, min + step, …` while `≤ max`.  For `step ≤ 0 ∧ min ≤ max` the source
loop never terminates; that case is modelled as `[]` and no claim exercises
it. -/
def rangeValues (mn mx step : Rat) : List Rat :=
  if 0 < step ∧ mn ≤ mx then
    (List.range (⌊(mx - mn) / step⌋.toNat + 1)).map (fun k => mn + (k : Rat) * step)
  else []

/-- `generate_parameter_combinations` / `generate_combinations_recursive`
(optimization/mod.rs lines 130-173).  The ranges are given as an association
list whose order models the (unspecified) iteration order of the source's
`HashMap::keys`; the first listed parameter varies slowest, exactly as in the
source's recursion.  Each combination is the association list of the `current`
map at the leaf. -/
def genCombos : List (String × (Rat × Rat × Rat)) → List (List (String × Rat))
  | [] => [[]]
  | (name, r) :: rest =>
    (rangeValues r.1 r.2.1 r.2.2).flatMap
      (fun v => (genCombos rest).map (fun c => (name, v) :: c))

/-- `ParameterSet` (optimization/mod.rs lines 37-41).  The
`backtest_result : Option<BacktestResult>` payload is omitted: no claim
mentions it and it does not influence ranking. -/
structure ParameterSet where
  values : List (String × Rat)
  score : Rat
deriving DecidableEq, Repr

/-- `OptimizationEngine::evaluate_parameters` (optimization/mod.rs lines
176-196).  The source builds a strategy from the tuple and calls
`self.backtest_engine.run(data, &strategy)`, but `BacktestEngine::run`
(engine.rs line 25) takes a signal slice, not a strategy, so that call does
not type-check against the engine; the score of a tuple is therefore modelled
as an abstract pure function `score` of the tuple (data and objective are
fixed for one sweep; a failed run's `-∞` score is subsumed by totality). -/
def evaluate_parameters (score : List (String × Rat) → Rat)
    (params : List (String × Rat)) : ParameterSet :=
  { values := params, score := score params }

/-- Rust's `Iterator::max_by` with `partial_cmp` defaulting to `Equal`
(optimization/mod.rs lines 105-109): of several maximal elements the last one
is returned; `ℚ` has no NaN, so the comparator is the total order. -/
def maxStep (acc : Option ParameterSet) (x : ParameterSet) : Option ParameterSet :=
  match acc with
  | none => some x
  | some m => if m.score ≤ x.score then some x else some m

/-- Fold of `maxStep` over the whole result list, starting from `none`. -/
def maxByScore (l : List ParameterSet) : Option ParameterSet :=
  l.foldl maxStep none

/-- `OptimizationResult` (optimization/mod.rs lines 45-51).
`optimization_time_ms` and `parallel_efficiency` are wall-clock diagnostics
and are omitted. -/
structure OptimizationResult where
  best_parameters : ParameterSet
  all_parameters : List ParameterSet
  total_combinations : Nat
deriving DecidableEq, Repr

/-- `OptimizationEngine::optimize` (optimization/mod.rs lines 67-127):
generate combinations (error when there are no parameters), truncate to
10000, evaluate each tuple — both the direct `par_iter().map().collect()`
path and the batched path assemble the per-tuple results in enumeration
order, so a sequential map models either and the worker count does not affect
the value — then pick the best by score.  No sorting of `results` is
performed anywhere. -/
def optimize (score : List (String × Rat) → Rat)
    (parameter_ranges : List (String × (Rat × Rat × Rat))) :
    Except Err OptimizationResult :=
  if parameter_ranges.isEmpty then .error .noParameters
  else
    let combos := genCombos parameter_ranges
    let combinations_to_test := combos.take 10000
    let results := combinations_to_test.map (evaluate_parameters score)
    match maxByScore results with
    | none => .error .noValidResults
    | some best =>
      .ok { best_parameters := best
            all_parameters := results
            total_combinations := combinations_to_test.length }

/-! Concrete fixtures used by counterexamples and witnesses. -/

/-- Cost-free config with initial capital 1000. -/
def cexCfg0 : BacktestConfig :=
  { initial_capital := 1000, commission := 0, slippage := 0, start_date := 0, end_date := 0 }

/-- Config with commission rate `0.1` and no slippage. -/
def cexCfgComm : BacktestConfig :=
  { initial_capital := 1000, commission := 1 / 10, slippage := 0, start_date := 0, end_date := 0 }

/-- Valid bar at timestamp 1. -/
def cexBarA : OHLCV :=
  { timestamp := 1, open_ := 100, high := 110, low := 95, close := 100, volume := 1000 }

/-- Valid bar at timestamp 2. -/
def cexBarB : OHLCV :=
  { timestamp := 2, open_ := 100, high := 110, low := 95, close := 100, volume := 1000 }

/-- Invalid bar (high 90 < low 95) at timestamp 1. -/
def cexBad1 : OHLCV :=
  { timestamp := 1, open_ := 100, high := 90, low := 95, close := 92, volume := 1000 }

/-- Valid bar at timestamp 2 used next to `cexBad1`. -/
def cexBad2 : OHLCV :=
  { timestamp := 2, open_ := 92, high := 94, low := 91, close := 93, volume := 1000 }

/-- Buy signal at timestamp 1. -/
def cexBuy1 : Signal := { timestamp := 1, signal_type := .Buy, price := 100, strength := 1 }

/-- Sell signal at timestamp 1. -/
def cexSell1 : Signal := { timestamp := 1, signal_type := .Sell, price := 100, strength := 1 }

/-- Sell signal at timestamp 2. -/
def cexSell2 : Signal := { timestamp := 2, signal_type := .Sell, price := 100, strength := 1 }

/-! Generic facts about the engine step functions, shared by several claims. -/

/-- Applying one signal never touches the equity curve (engine.rs lines
85-116: the curve is appended to only at the top of the bar loop). -/
theorem processSignal_equity_curve (cfg : BacktestConfig) (d : OHLCV)
    (sorted : List Signal) (st : EngineState) (s : Signal) :
    (processSignal cfg d sorted st s).equity_curve = st.equity_curve := by
  unfold processSignal
  cases s.signal_type
  all_goals first
    | rfl
    | (split <;> first
        | rfl
        | (split <;> rfl))

/-- Folding the per-bar signal applications never touches the equity curve. -/
theorem foldl_processSignal_equity (cfg : BacktestConfig) (d : OHLCV)
    (sorted : List Signal) :
    ∀ (l : List Signal) (st : EngineState),
      (l.foldl (processSignal cfg d sorted) st).equity_curve = st.equity_curve := by
  intro l
  induction l with
  | nil => intro st; rfl
  | cons s l ih =>
    intro st
    rw [List.foldl_cons, ih, processSignal_equity_curve]

/-- One bar appends exactly one equity point, whose value is the
mark-to-market formula of engine.rs line 81 evaluated at the state entering
the bar. -/
theorem processBar_equity (cfg : BacktestConfig) (sorted : List Signal)
    (st : EngineState) (d : OHLCV) :
    (processBar cfg sorted st d).equity_curve =
      st.equity_curve ++ [cfg.initial_capital + st.position * (d.close - st.entry_price)] := by
  unfold processBar
  rw [foldl_processSignal_equity]

/-- With no signals a bar only appends the flat equity point. -/
theorem processBar_nil_pos0 (cfg : BacktestConfig) (st : EngineState) (d : OHLCV)
    (hpos : st.position = 0) :
    processBar cfg [] st d =
      { st with current_capital := cfg.initial_capital
                equity_curve := st.equity_curve ++ [cfg.initial_capital] } := by
  unfold processBar
  simp [hpos]

/-- Bar loop with no signals: trades stay put, the equity curve extends by one
initial-capital point per bar, the position stays flat. -/
theorem noSignals_fold (cfg : BacktestConfig) :
    ∀ (data : List OHLCV) (st : EngineState), st.position = 0 →
      (data.foldl (processBar cfg []) st).trades = st.trades ∧
      (data.foldl (processBar cfg []) st).equity_curve =
        st.equity_curve ++ List.replicate data.length cfg.initial_capital ∧
      (data.foldl (processBar cfg []) st).position = 0 := by
  intro data
  induction data with
  | nil => intro st h; exact ⟨rfl, by simp, h⟩
  | cons d rest ih =>
    intro st h
    rw [List.foldl_cons, processBar_nil_pos0 cfg st d h]
    obtain ⟨h1, h2, h3⟩ := ih
      { st with current_capital := cfg.initial_capital
                equity_curve := st.equity_curve ++ [cfg.initial_capital] } h
    refine ⟨h1, ?_, h3⟩
    rw [h2]
    simp [List.replicate_succ]

/-- C1 (corrected): with a non-empty bar series and an empty signal list,
`execute_trades` produces zero trades and a flat equity curve at
`initial_capital`, but `BacktestEngine::run` then fails with
`MetricsError::EmptyTrades`, because `calculate_metrics` rejects an empty
trade ledger (metrics.rs lines 355-357); it does not return a successful
result. -/
theorem run_empty_signals_errors (cfg : BacktestConfig) (data : List OHLCV)
    (h : data ≠ []) :
    BacktestEngineRun cfg data [] = .error (.metricsError .EmptyTrades) ∧
    execute_trades cfg data [] =
      .ok ([], List.replicate data.length cfg.initial_capital) := by
  have hne : data.isEmpty = false := by
    cases data with
    | nil => exact absurd rfl h
    | cons a l => rfl
  have hex : execute_trades cfg data [] =
      .ok ([], List.replicate data.length cfg.initial_capital) := by
    unfold execute_trades
    rw [hne]
    have hfold := noSignals_fold cfg data
      { trades := [], equity_curve := [], current_capital := cfg.initial_capital
        position := 0, entry_price := 0 } rfl
    simp only [Bool.false_eq_true, if_false]
    rw [show sortSignals [] = [] from rfl]
    rw [hfold.1, hfold.2.1]
    simp
  refine ⟨?_, hex⟩
  unfold BacktestEngineRun
  rw [hex]
  rfl

/-- Witness for `run_empty_signals_errors` at a concrete one-bar input. -/
theorem run_empty_signals_errors_witness :
    BacktestEngineRun cexCfg0 [cexBarA] [] = .error (.metricsError .EmptyTrades) ∧
    execute_trades cexCfg0 [cexBarA] [] =
      .ok ([], List.replicate [cexBarA].length cexCfg0.initial_capital) :=
  run_empty_signals_errors cexCfg0 [cexBarA] (by simp)

/-- C1 counterexample: a valid one-bar series with no signals makes
`BacktestEngine::run` (and hence `run_backtest`) fail instead of returning a
successful zero-trade result. -/
theorem run_empty_signals_counterexample :
    validate_data [cexBarA] = .ok true ∧
    (BacktestEngineRun cexCfg0 [cexBarA] []).isOk = false ∧
    (run_backtest [] [cexBarA] cexCfg0).isOk = false := by
  refine ⟨by decide, ?_, ?_⟩ <;> decide


/-- Engine state holding a long position of 19/2 units entered at 100. -/
def cexStLong : EngineState :=
  { trades := [], equity_curve := [1000], current_capital := 50
    position := 19 / 2, entry_price := 100 }

/-- Flat engine state at the start of a run with capital 1000. -/
def cexSt0 : EngineState :=
  { trades := [], equity_curve := [], current_capital := 1000
    position := 0, entry_price := 0 }

/-- C2 (corrected): the trade record emitted on a Sell carries
`pnl = proceeds - quantity * entry_price` (engine.rs line 106); neither the
entry commission nor the exit commission is subtracted.  The `commission`
field records `quantity * entry_price * commission_rate` (the entry leg
only). -/
theorem sell_trade_pnl_formula (cfg : BacktestConfig) (d : OHLCV)
    (sorted : List Signal) (st : EngineState) (s : Signal) (entry_sig : Signal)
    (hs : s.signal_type = .Sell) (hp : 0 < st.position)
    (hfind : sorted.find? (fun x => x.signal_type == SignalType.Buy) = some entry_sig) :
    (processSignal cfg d sorted st s).trades =
      st.trades ++
        [{ id := st.trades.length
           entry_time := entry_sig.timestamp
           exit_time := some d.timestamp
           entry_price := st.entry_price
           exit_price := some d.close
           quantity := st.position
           pnl := some (st.position * d.close * (1 - cfg.slippage) - st.position * st.entry_price)
           commission := st.position * st.entry_price * cfg.commission }] := by
  unfold processSignal
  rw [hs]
  dsimp only
  rw [if_pos hp, hfind]

/-- Witness for `sell_trade_pnl_formula`: selling 19/2 units entered at 100
into a close of 100 with commission rate 1/10 records `pnl = 0` and
`commission = 95`. -/
theorem sell_trade_pnl_formula_witness :
    (processSignal cexCfgComm cexBarB [cexBuy1] cexStLong cexSell2).trades =
      [{ id := 0
         entry_time := 1
         exit_time := some 2
         entry_price := 100
         exit_price := some 100
         quantity := 19 / 2
         pnl := some 0
         commission := 95 }] := by
  rw [sell_trade_pnl_formula cexCfgComm cexBarB [cexBuy1] cexStLong cexSell2 cexBuy1
    rfl (by norm_num [cexStLong]) rfl]
  norm_num [cexStLong, cexBarB, cexBuy1, cexCfgComm, Trade.mk.injEq]

/-- C2 counterexample: a concrete run (commission rate 1/10, no slippage,
entry and exit at close 100, quantity 19/2) records `pnl = 0`, while the
claimed formula `proceeds - q*ep - entry_commission - exit_commission`
evaluates to -190. -/
theorem trade_pnl_counterexample :
    (execute_trades cexCfgComm [cexBarA, cexBarB] [cexBuy1, cexSell2]).map
        (fun p => p.1.map Trade.pnl) = .ok [some 0] ∧
    ¬ ((0 : Rat) =
        (19 / 2) * 100 * (1 - cexCfgComm.slippage) - (19 / 2) * 100
          - (19 / 2) * 100 * cexCfgComm.commission
          - ((19 / 2) * 100 * (1 - cexCfgComm.slippage)) * cexCfgComm.commission) := by
  constructor
  · norm_num [execute_trades, sortSignals, List.insertionSort, List.orderedInsert,
      sigLe, processBar, processSignal, Except.map, cexCfgComm, cexBarA, cexBarB,
      cexBuy1, cexSell2]
  · norm_num [cexCfgComm]

/-- Length bookkeeping for the bar loop: each bar contributes exactly one
equity point. -/
theorem foldl_processBar_equity_length (cfg : BacktestConfig) (sorted : List Signal) :
    ∀ (data : List OHLCV) (st : EngineState),
      ((data.foldl (processBar cfg sorted) st).equity_curve).length =
        st.equity_curve.length + data.length := by
  intro data
  induction data with
  | nil => intro st; simp
  | cons d rest ih =>
    intro st
    rw [List.foldl_cons, ih, processBar_equity]
    simp
    omega

/-- C3 (confirmed): the equity point appended at a bar equals
`initial_capital + position * (close - entry_price)` evaluated at the state
entering the bar; when flat (`position = 0`) that value is `initial_capital`;
and a successful `execute_trades` returns one equity point per bar. -/
theorem equity_curve_step_and_length (cfg : BacktestConfig) (sorted : List Signal) :
    (∀ (st : EngineState) (d : OHLCV),
        (processBar cfg sorted st d).equity_curve =
          st.equity_curve ++
            [cfg.initial_capital + st.position * (d.close - st.entry_price)]) ∧
    (∀ (st : EngineState) (d : OHLCV), st.position = 0 →
        cfg.initial_capital + st.position * (d.close - st.entry_price) =
          cfg.initial_capital) ∧
    (∀ (data : List OHLCV) (signals : List Signal) (trades : List Trade)
        (eqc : List Rat),
        execute_trades cfg data signals = .ok (trades, eqc) →
          eqc.length = data.length) := by
  refine ⟨processBar_equity cfg sorted, ?_, ?_⟩
  · intro st d h
    rw [h]
    ring
  · intro data signals trades eqc h
    unfold execute_trades at h
    split at h
    · exact absurd h (by simp)
    · injection h with h'
      injection h' with h1 h2
      rw [← h2, foldl_processBar_equity_length]
      simp

/-- Witness for `equity_curve_step_and_length` at a concrete flat state and a
concrete two-bar no-signal run. -/
theorem equity_curve_step_and_length_witness :
    (processBar cexCfg0 [] cexSt0 cexBarA).equity_curve =
      cexSt0.equity_curve ++
        [cexCfg0.initial_capital + cexSt0.position * (cexBarA.close - cexSt0.entry_price)] ∧
    cexCfg0.initial_capital + cexSt0.position * (cexBarA.close - cexSt0.entry_price) =
      cexCfg0.initial_capital ∧
    ([1000, 1000] : List Rat).length = [cexBarA, cexBarB].length := by
  have h := equity_curve_step_and_length cexCfg0 []
  exact ⟨h.1 cexSt0 cexBarA, h.2.1 cexSt0 cexBarA rfl,
    h.2.2 [cexBarA, cexBarB] [] [] [1000, 1000]
      (by norm_num [execute_trades, sortSignals, List.insertionSort, List.orderedInsert,
        sigLe, processBar, processSignal, cexCfg0, cexBarA, cexBarB])⟩

/-- Metrics-module trade fixture with positive pnl. -/
def cexMTrade : MetricsTrade :=
  { entry_date := "1", exit_date := "2", entry_price := 100, exit_price := 110
    quantity := 1, pnl := 10 }

/-- Metrics bundle computed on `[cexMTrade]` and equity `[100, 110, 99]`. -/
def cexM : PerformanceMetrics :=
  { total_return := -1 / 100, max_drawdown := 1 / 10, win_rate := 1
    trade_count := 1, avg_hold_days := 1, volatility := 0 }

/-- C5 (corrected): the `volatility` field of every successfully returned
metrics bundle is the literal `0` (metrics.rs line 156), regardless of the
daily returns; the annualised sample standard deviation computed by
`calculate_volatility` is used only for the Sharpe ratio and never stored. -/
theorem volatility_field_always_zero (trades : List MetricsTrade)
    (equity_curve : List Rat) (r : Rat) (m : PerformanceMetrics)
    (h : calculate_metrics trades equity_curve r = .ok m) : m.volatility = 0 := by
  unfold calculate_metrics at h
  split at h
  · exact absurd h (by simp)
  · split at h
    · exact absurd h (by simp)
    · injection h with h'
      rw [← h']

/-- Witness for `volatility_field_always_zero` at a concrete input. -/
theorem volatility_field_always_zero_witness : cexM.volatility = 0 :=
  volatility_field_always_zero [cexMTrade] [100, 110, 99] 0 cexM
    (by norm_num [calculate_metrics, validate_input, calculate_returns, returnsGo,
      calculate_max_drawdown, mddStep, calculate_winning_trades,
      calculate_average_hold_time, parse_date_difference_days, cexMTrade, cexM,
      PerformanceMetrics.mk.injEq])

/-- C5 counterexample: on equity `[100, 110, 99]` the returns are
`[1/10, -1/10]`, whose sample variance times 252 is `126/25 > 0`, so the
claimed field value `stddev * sqrt 252` (non-negative, with square `126/25`)
is non-zero — yet the returned `volatility` field is `0`: `0 ^ 2 ≠ 126/25`
refutes `field = stddev * sqrt 252`. -/
theorem volatility_field_counterexample :
    (calculate_metrics [cexMTrade] [100, 110, 99] 0).map
        PerformanceMetrics.volatility = .ok 0 ∧
    (calculate_returns [100, 110, 99]).map calculate_volatility_sq = .ok (126 / 25) ∧
    ¬ ((0 : Rat) ^ 2 = 126 / 25) := by
  refine ⟨?_, ?_, by norm_num⟩
  · norm_num [calculate_metrics, validate_input, calculate_returns, returnsGo,
      calculate_max_drawdown, mddStep, calculate_winning_trades,
      calculate_average_hold_time, parse_date_difference_days, cexMTrade, Except.map]
  · norm_num [calculate_returns, returnsGo, calculate_volatility_sq, Except.map]

/-- On a curve that never dips below the running peak the `calculate_drawdown`
fold keeps its accumulated maximum unchanged. -/
theorem dd_monotone :
    ∀ (l : List Rat) (p m : Rat), 0 ≤ m → (∀ v ∈ l, p ≤ v) →
      l.Pairwise (· ≤ ·) → (l.foldl ddStep (p, m)).2 = m := by
  intro l
  induction l with
  | nil => intro p m _ _ _; rfl
  | cons v rest ih =>
    intro p m hm hall hpw
    have hpv : p ≤ v := hall v (by simp)
    have hstep : ddStep (p, m) v = ((if v > p then v else p), m) := by
      unfold ddStep
      by_cases hvp : v > p
      · simp [hvp, hm.not_lt]
      · have hv : v = p := le_antisymm (not_lt.mp hvp) hpv
        simp [hvp, hv, hm.not_lt]
    rw [List.foldl_cons, hstep]
    refine ih _ m hm ?_ (List.Pairwise.of_cons hpw)
    intro w hw
    have hvw : v ≤ w := (List.pairwise_cons.mp hpw).1 w hw
    by_cases hvp : v > p
    · simpa [hvp] using hvw
    · simpa [hvp] using le_trans hpv hvw

/-- On strictly positive curves the `calculate_drawdown` fold keeps its
accumulated maximum inside `[0, 1]`. -/
theorem dd_bounds :
    ∀ (l : List Rat) (p m : Rat), 0 < p → 0 ≤ m → m ≤ 1 → (∀ v ∈ l, 0 < v) →
      0 ≤ (l.foldl ddStep (p, m)).2 ∧ (l.foldl ddStep (p, m)).2 ≤ 1 := by
  intro l
  induction l with
  | nil => intro p m _ hm0 hm1 _; exact ⟨hm0, hm1⟩
  | cons v rest ih =>
    intro p m hp hm0 hm1 hall
    have hv : 0 < v := hall v (by simp)
    have hpeak : 0 < (if v > p then v else p) := by
      by_cases hvp : v > p <;> simp [hvp, hv, hp]
    have hle : v ≤ (if v > p then v else p) := by
      by_cases hvp : v > p
      · rw [if_pos hvp]
      · rw [if_neg hvp]
        exact le_of_not_lt hvp
    have hdd0 : 0 ≤ ((if v > p then v else p) - v) / (if v > p then v else p) :=
      div_nonneg (sub_nonneg.mpr hle) hpeak.le
    have hdd1 : ((if v > p then v else p) - v) / (if v > p then v else p) ≤ 1 := by
      rw [div_le_one hpeak]
      linarith
    have hstep : ddStep (p, m) v =
        ((if v > p then v else p),
          if ((if v > p then v else p) - v) / (if v > p then v else p) > m then
            ((if v > p then v else p) - v) / (if v > p then v else p)
          else m) := rfl
    rw [List.foldl_cons, hstep]
    refine ih _ _ hpeak ?_ ?_ (fun w hw => hall w (by simp [hw]))
    · by_cases hc : ((if v > p then v else p) - v) / (if v > p then v else p) > m <;>
        simp [hc, hdd0, hm0]
    · by_cases hc : ((if v > p then v else p) - v) / (if v > p then v else p) > m <;>
        simp [hc, hdd1, hm1]

/-- C7 (corrected): the engine's `calculate_drawdown` returns an *error* for
an empty curve (engine.rs lines 171-173), `0` for a non-decreasing (in
particular strictly increasing) curve, and a value in `[0, 1]` for every
non-empty positive curve; the metrics-module `calculate_max_drawdown` is the
variant that returns `0` on empty input. -/
theorem drawdown_properties :
    calculate_drawdown [] = .error .emptyEquityCurve ∧
    (∀ (e0 : Rat) (rest : List Rat), (e0 :: rest).Pairwise (· ≤ ·) →
        calculate_drawdown (e0 :: rest) = .ok 0) ∧
    (∀ (e0 : Rat) (rest : List Rat), (∀ v ∈ e0 :: rest, 0 < v) →
        ∃ d, calculate_drawdown (e0 :: rest) = .ok d ∧ 0 ≤ d ∧ d ≤ 1) ∧
    calculate_max_drawdown [] = 0 := by
  refine ⟨rfl, ?_, ?_, rfl⟩
  · intro e0 rest hpw
    have hall : ∀ v ∈ e0 :: rest, e0 ≤ v := by
      intro v hv
      rcases List.mem_cons.mp hv with rfl | hv
      · exact le_rfl
      · exact (List.pairwise_cons.mp hpw).1 v hv
    have h := dd_monotone (e0 :: rest) e0 0 le_rfl hall hpw
    show Except.ok ((e0 :: rest).foldl ddStep (e0, 0)).2 = Except.ok 0
    rw [h]
  · intro e0 rest hpos
    obtain ⟨h0, h1⟩ :=
      dd_bounds (e0 :: rest) e0 0 (hpos e0 (by simp)) le_rfl zero_le_one hpos
    exact ⟨_, rfl, h0, h1⟩

/-- Witness for `drawdown_properties` on concrete curves. -/
theorem drawdown_properties_witness :
    calculate_drawdown [1, 2] = .ok 0 ∧
    (∃ d, calculate_drawdown [2, 1] = .ok d ∧ 0 ≤ d ∧ d ≤ 1) := by
  obtain ⟨-, h2, h3, -⟩ := drawdown_properties
  refine ⟨h2 1 [2] ?_, h3 2 [1] ?_⟩
  · norm_num [List.pairwise_cons]
  · intro v hv
    rcases List.mem_cons.mp hv with rfl | hv
    · norm_num
    · rcases List.mem_cons.mp hv with rfl | hv
      · norm_num
      · cases hv

/-- C7 counterexample: on the empty curve `calculate_drawdown` errors rather
than returning `0`, and on the strictly monotonic (decreasing) curve `[2, 1]`
it returns `1/2`, not `0`. -/
theorem drawdown_counterexample :
    (calculate_drawdown []).isOk = false ∧
    calculate_drawdown [2, 1] = .ok (1 / 2) ∧ ¬ ((1 / 2 : Rat) = 0) := by
  refine ⟨rfl, ?_, by norm_num⟩
  show Except.ok (([2, 1] : List Rat).foldl ddStep (2, 0)).2 = Except.ok (1 / 2)
  norm_num [ddStep, List.foldl]

/-- `emaGo` preserves length. -/
theorem emaGo_length (multiplier : Rat) :
    ∀ (l : List Rat) (prev : Rat), (emaGo multiplier prev l).length = l.length := by
  intro l
  induction l with
  | nil => intro prev; rfl
  | cons p rest ih => intro prev; simp [emaGo, ih]

/-- `obvGo` preserves length. -/
theorem obvGo_length :
    ∀ (l : List (Rat × Rat)) (prev prevClose : Rat),
      (obvGo prev prevClose l).length = l.length := by
  intro l
  induction l with
  | nil => intro prev prevClose; rfl
  | cons pv rest ih =>
    intro prev prevClose
    obtain ⟨c, v⟩ := pv
    simp [obvGo, ih]

/-- C8 (corrected): for every positive period, `sma` and `ema` return exactly
one output per input element, and `obv` does so whenever the volume series has
the close series' length (the source panics otherwise).  The positivity
restriction is needed: `period = 0` makes `sma`/`ema` return an empty
vector. -/
theorem indicator_length_preservation :
    (∀ (prices : List Rat) (period : Nat), 1 ≤ period →
        (sma prices period).length = prices.length) ∧
    (∀ (prices : List Rat) (period : Nat), 1 ≤ period →
        (ema prices period).length = prices.length) ∧
    (∀ (close volume : List Rat), close.length = volume.length →
        (obv close volume).length = close.length) := by
  refine ⟨?_, ?_, ?_⟩
  · intro prices period hp
    unfold sma
    rcases Decidable.em (prices.isEmpty = true ∨ period = 0) with hc | hc
    · rw [if_pos hc]
      rcases hc with hc | hc
      · rw [List.isEmpty_iff] at hc
        simp [hc]
      · exact absurd hc (by omega)
    · rw [if_neg hc]
      simp
  · intro prices period hp
    cases prices with
    | nil => rfl
    | cons p0 rest =>
      simp only [ema]
      rw [if_neg (by omega)]
      simp [emaGo_length]
  · intro close volume h
    cases close with
    | nil => rfl
    | cons c0 crest =>
      unfold obv
      simp only [List.length_cons, List.length_zip, List.length_drop, obvGo_length]
      simp at h
      omega

/-- Witness for `indicator_length_preservation` at concrete series. -/
theorem indicator_length_preservation_witness :
    (sma [1, 2, 3, 4, 5] 3).length = ([1, 2, 3, 4, 5] : List Rat).length ∧
    (ema [1, 2] 2).length = ([1, 2] : List Rat).length ∧
    (obv [1, 2] [10, 20]).length = ([1, 2] : List Rat).length := by
  obtain ⟨h1, h2, h3⟩ := indicator_length_preservation
  exact ⟨h1 _ 3 (by norm_num), h2 _ 2 (by norm_num), h3 [1, 2] [10, 20] rfl⟩

/-- C8 counterexample: with `period = 0` (an allowed value under "any period
parameter") `sma` returns the empty vector for a length-1 input. -/
theorem sma_zero_period_counterexample :
    sma [1] 0 = [] ∧ ¬ ((sma [1] 0).length = ([1] : List Rat).length) := by
  refine ⟨rfl, ?_⟩
  intro h
  simp [sma] at h

/-- The element returned by the `max_by` fold weakly dominates the
accumulator and every folded element. -/
theorem maxByScore_ge :
    ∀ (l : List ParameterSet) (acc : Option ParameterSet) (m : ParameterSet),
      l.foldl maxStep acc = some m →
        (∀ x, acc = some x → x.score ≤ m.score) ∧ ∀ p ∈ l, p.score ≤ m.score := by
  intro l
  induction l with
  | nil =>
    intro acc m h
    refine ⟨?_, by intro p hp; cases hp⟩
    intro x hx
    rw [hx] at h
    rw [Option.some.inj h]
  | cons q rest ih =>
    intro acc m h
    rw [List.foldl_cons] at h
    obtain ⟨Hacc, Hmem⟩ := ih (maxStep acc q) m h
    have hq : q.score ≤ m.score := by
      cases acc with
      | none => exact Hacc q rfl
      | some a =>
        by_cases hle : a.score ≤ q.score
        · exact Hacc q (by simp [maxStep, if_pos hle])
        · exact le_trans (le_of_not_le hle) (Hacc a (by simp [maxStep, if_neg hle]))
    refine ⟨?_, ?_⟩
    · intro x hx
      cases acc with
      | none => cases hx
      | some a =>
        cases Option.some.inj hx
        by_cases hle : x.score ≤ q.score
        · exact le_trans hle hq
        · exact Hacc x (by simp [maxStep, if_neg hle])
    · intro p hp
      rcases List.mem_cons.mp hp with rfl | hp
      · exact hq
      · exact Hmem p hp

/-- Shape of a successful `optimize` call: the result list is the in-order
evaluation of the (truncated) enumeration and the best element is the
`max_by` of that list. -/
theorem optimize_ok_elim (score : List (String × Rat) → Rat)
    (ranges : List (String × (Rat × Rat × Rat))) (r : OptimizationResult)
    (h : optimize score ranges = .ok r) :
    r.all_parameters = ((genCombos ranges).take 10000).map (evaluate_parameters score) ∧
    maxByScore (((genCombos ranges).take 10000).map (evaluate_parameters score)) =
      some r.best_parameters := by
  unfold optimize at h
  split at h
  · exact absurd h (by simp)
  · dsimp only at h
    split at h
    next heq => exact absurd h (by simp)
    next best heq =>
      cases Except.ok.inj h
      exact ⟨rfl, heq⟩

/-- C4 (corrected): `optimize` never sorts; the returned list is exactly the
per-tuple evaluation in enumeration order (so it is *not* descending by score
in general), and the separately returned `best_parameters` weakly dominates
every listed score. -/
theorem optimize_enumeration_order_and_best (score : List (String × Rat) → Rat)
    (ranges : List (String × (Rat × Rat × Rat))) (r : OptimizationResult)
    (h : optimize score ranges = .ok r) :
    r.all_parameters =
      ((genCombos ranges).take 10000).map (evaluate_parameters score) ∧
    ∀ p ∈ r.all_parameters, p.score ≤ r.best_parameters.score := by
  obtain ⟨h1, h2⟩ := optimize_ok_elim score ranges r h
  refine ⟨h1, ?_⟩
  rw [h1]
  exact (maxByScore_ge _ none r.best_parameters h2).2

/-- Score used by the C4 fixtures: the value of parameter `"p"`. -/
def exScoreP : List (String × Rat) → Rat := fun m => (m.lookup "p").getD 0

/-- The `optimize` output on the one-parameter grid `p ∈ {1, 2}` with score
`p` itself. -/
def cexOptResult : OptimizationResult :=
  { best_parameters := { values := [("p", 2)], score := 2 }
    all_parameters :=
      [{ values := [("p", 1)], score := 1 }, { values := [("p", 2)], score := 2 }]
    total_combinations := 2 }

/-- The range `(1, 2, 1)` enumerates `[1, 2]`. -/
theorem rangeValues_one_two : rangeValues 1 2 1 = [1, 2] := by
  unfold rangeValues
  rw [if_pos (by norm_num)]
  have h1 : (((2 : Rat) - 1) / 1) = 1 := by norm_num
  rw [h1, Int.floor_one]
  norm_num [List.range_succ]

/-- Concrete evaluation of `optimize` on the C4 fixture grid. -/
theorem optimize_exScoreP_eval :
    optimize exScoreP [("p", (1, 2, 1))] = .ok cexOptResult := by
  have hcombos : genCombos [("p", (1, 2, 1))] = [[("p", 1)], [("p", 2)]] := by
    simp [genCombos, rangeValues_one_two]
  unfold optimize
  rw [if_neg (by simp)]
  dsimp only
  rw [hcombos]
  rw [List.take_of_length_le (by norm_num)]
  norm_num [evaluate_parameters, maxByScore, maxStep, exScoreP, List.lookup,
    cexOptResult, List.foldl]

/-- Witness for `optimize_enumeration_order_and_best` on the fixture grid. -/
theorem optimize_enumeration_order_and_best_witness :
    cexOptResult.all_parameters =
      ((genCombos [("p", (1, 2, 1))]).take 10000).map (evaluate_parameters exScoreP) ∧
    ParameterSet.score { values := [("p", (1 : Rat))], score := 1 } ≤
      cexOptResult.best_parameters.score := by
  have h := optimize_enumeration_order_and_best exScoreP [("p", (1, 2, 1))]
    cexOptResult optimize_exScoreP_eval
  refine ⟨h.1, h.2 _ ?_⟩
  simp [cexOptResult]

/-- C4 counterexample: on the fixture grid the returned list carries scores
`[1, 2]` in enumeration order, which is ascending, not descending
(`results[0].score < results[1].score`). -/
theorem optimize_results_unsorted_counterexample :
    (optimize exScoreP [("p", (1, 2, 1))]).map
        (fun r => r.all_parameters.map ParameterSet.score) = .ok [1, 2] ∧
    ¬ ((1 : Rat) ≥ 2) := by
  refine ⟨?_, by norm_num⟩
  rw [optimize_exScoreP_eval]
  norm_num [cexOptResult, Except.map]

/-- C10 (confirmed): `BacktestEngine::run` performs no bar-integrity
validation — on a series whose first bar has `high < low` (and a Buy/Sell
pair producing one trade) it returns a successful result, while
`validate_data` rejects the series and the wrapper entry points
`run_backtest` and `run_sma_backtest` both fail on it via `validate_data`. -/
theorem engine_run_skips_validation :
    (validate_data [cexBad1, cexBad2]).isOk = false ∧
    (BacktestEngineRun cexCfg0 [cexBad1, cexBad2] [cexBuy1, cexSell2]).isOk = true ∧
    (run_backtest [cexBuy1, cexSell2] [cexBad1, cexBad2] cexCfg0).isOk = false ∧
    (run_sma_backtest [cexBad1, cexBad2] 1 2 1000).isOk = false := by
  have hval : validate_data [cexBad1, cexBad2] = .error (.invalidBarHighLow 0) := by
    norm_num [validate_data, validateBars, validateBar, cexBad1, cexBad2]
  refine ⟨by rw [hval]; rfl, ?_, ?_, ?_⟩
  · norm_num [BacktestEngineRun, execute_trades, sortSignals, List.insertionSort,
      List.orderedInsert, sigLe, processBar, processSignal, calculate_metrics,
      validate_input, calculate_returns, returnsGo, calculate_max_drawdown, mddStep,
      calculate_winning_trades, calculate_average_hold_time,
      parse_date_difference_days, tradeToMetrics, Except.isOk, Except.toBool,
      cexCfg0, cexBad1, cexBad2, cexBuy1, cexSell2]
  · unfold run_backtest
    rw [if_neg (by simp)]
    rw [hval]
    rfl
  · unfold run_sma_backtest
    rw [if_neg (by decide), if_neg (by decide)]
    rw [hval]
    rfl

/-- A ledger trade whose exit timestamp is at or after its entry timestamp. -/
def goodTrade (t : Trade) : Prop := ∃ x, t.exit_time = some x ∧ t.entry_time ≤ x

/-- The stable sort of engine.rs line 74 produces a timestamp-sorted list. -/
theorem sortSignals_sorted (signals : List Signal) :
    (sortSignals signals).Pairwise sigLe :=
  List.sorted_insertionSort sigLe signals

/-- In a timestamp-sorted list, the first `Buy` found by `find?` has the
minimal timestamp among all `Buy` signals. -/
theorem find_buy_min :
    ∀ (ss : List Signal), ss.Pairwise sigLe →
      ∀ e : Signal, ss.find? (fun x => x.signal_type == SignalType.Buy) = some e →
        ∀ s ∈ ss, s.signal_type = .Buy → e.timestamp ≤ s.timestamp := by
  intro ss
  induction ss with
  | nil => intro _ e he; simp at he
  | cons a l ih =>
    intro hpw e he s hs hbuy
    by_cases ha : (a.signal_type == SignalType.Buy) = true
    · rw [List.find?_cons_of_pos (p := fun x => x.signal_type == SignalType.Buy) l ha] at he
      cases Option.some.inj he
      rcases List.mem_cons.mp hs with rfl | hs'
      · exact le_rfl
      · exact (List.pairwise_cons.mp hpw).1 s hs'
    · rw [List.find?_cons_of_neg (p := fun x => x.signal_type == SignalType.Buy) l ha] at he
      rcases List.mem_cons.mp hs with rfl | hs'
      · exact absurd (by simp [hbuy]) ha
      · exact ih (List.Pairwise.of_cons hpw) e he s hs' hbuy

/-- Invariant carried through the signal loop at a bar of timestamp `T`:
all emitted trades are `goodTrade`, and while a position is open the first
`Buy` of the sorted signal list is timestamped at or before `T`. -/
def InvAt (sorted : List Signal) (T : Nat) (st : EngineState) : Prop :=
  (∀ t ∈ st.trades, goodTrade t) ∧
  (0 < st.position →
    ∀ e, sorted.find? (fun x => x.signal_type == SignalType.Buy) = some e →
      e.timestamp ≤ T)

/-- One signal application preserves `InvAt` (the applied signal carries the
bar's timestamp and belongs to the sorted list). -/
theorem processSignal_inv (cfg : BacktestConfig) (d : OHLCV)
    (sorted : List Signal) (st : EngineState) (s : Signal)
    (hpw : sorted.Pairwise sigLe) (hmem : s ∈ sorted)
    (hts : s.timestamp = d.timestamp)
    (hinv : InvAt sorted d.timestamp st) :
    InvAt sorted d.timestamp (processSignal cfg d sorted st s) := by
  obtain ⟨htr, hpos⟩ := hinv
  unfold processSignal
  cases hsig : s.signal_type
  · dsimp only
    split
    · refine ⟨htr, ?_⟩
      intro _ e hfind
      have := find_buy_min sorted hpw e hfind s hmem hsig
      exact hts ▸ this
    · exact ⟨htr, hpos⟩
  · dsimp only
    split
    next hp =>
      constructor
      · intro t ht
        rcases hfind : sorted.find? (fun x => x.signal_type == SignalType.Buy) with
          _ | e
        · simp only [hfind] at ht
          exact htr t ht
        · simp only [hfind] at ht
          rcases List.mem_append.mp ht with ht' | ht'
          · exact htr t ht'
          · have : t = { id := st.trades.length
                         entry_time := e.timestamp
                         exit_time := some d.timestamp
                         entry_price := st.entry_price
                         exit_price := some d.close
                         quantity := st.position
                         pnl := some (st.position * d.close * (1 - cfg.slippage) -
                           st.position * st.entry_price)
                         commission := st.position * st.entry_price * cfg.commission } := by
              simpa using ht'
          
            subst this
            exact ⟨d.timestamp, rfl, hpos hp e hfind⟩
      · intro hq
        exact absurd hq (by norm_num)
    next hp => exact ⟨htr, hpos⟩
  · exact ⟨htr, hpos⟩

/-- The whole signal loop of one bar preserves `InvAt`. -/
theorem foldl_processSignal_inv (cfg : BacktestConfig) (d : OHLCV)
    (sorted : List Signal) (hpw : sorted.Pairwise sigLe) :
    ∀ (l : List Signal) (st : EngineState),
      (∀ s ∈ l, s ∈ sorted ∧ s.timestamp = d.timestamp) →
      InvAt sorted d.timestamp st →
      InvAt sorted d.timestamp (l.foldl (processSignal cfg d sorted) st) := by
  intro l
  induction l with
  | nil => intro st _ hinv; exact hinv
  | cons s l ih =>
    intro st hl hinv
    rw [List.foldl_cons]
    obtain ⟨hmem, hts⟩ := hl s (by simp)
    exact ih _ (fun x hx => hl x (by simp [hx]))
      (processSignal_inv cfg d sorted st s hpw hmem hts hinv)

/-- The bar loop keeps every emitted trade `goodTrade`, provided bar
timestamps are non-decreasing. -/
theorem foldl_processBar_good (cfg : BacktestConfig) (sorted : List Signal)
    (hpw : sorted.Pairwise sigLe) :
    ∀ (data : List OHLCV) (st : EngineState),
      data.Pairwise (fun a b => a.timestamp ≤ b.timestamp) →
      (∀ t ∈ st.trades, goodTrade t) →
      (0 < st.position →
        ∀ d' ∈ data, ∀ e,
          sorted.find? (fun x => x.signal_type == SignalType.Buy) = some e →
            e.timestamp ≤ d'.timestamp) →
      ∀ t ∈ (data.foldl (processBar cfg sorted) st).trades, goodTrade t := by
  intro data
  induction data with
  | nil => intro st _ htr _; exact htr
  | cons d rest ih =>
    intro st hdata htr hposInv
    rw [List.foldl_cons]
    have hinv1 : InvAt sorted d.timestamp (processBar cfg sorted st d) := by
      unfold processBar
      refine foldl_processSignal_inv cfg d sorted hpw _ _ ?_ ⟨htr, ?_⟩
      · intro s hs
        have hmem := List.mem_filter.mp hs
        exact ⟨hmem.1, by simpa using hmem.2⟩
      · intro hq e hfind
        exact hposInv hq d (by simp) e hfind
    refine ih _ (List.Pairwise.of_cons hdata) hinv1.1 ?_
    intro hq d' hd' e hfind
    exact le_trans (hinv1.2 hq e hfind)
      ((List.pairwise_cons.mp hdata).1 d' hd')

/-- C6 (corrected): on a bar series with non-decreasing timestamps every
emitted trade satisfies `exit_ts ≥ entry_ts` (the recorded entry timestamp is
that of the first `Buy` in the sorted signal list); strict inequality fails
because a Buy and a Sell at the same timestamp close a trade within one
bar.  The pnl of every trade is the rational
`proceeds - quantity * entry_price`, which is finite by construction in the
model. -/
theorem trade_exit_ge_entry (cfg : BacktestConfig) (data : List OHLCV)
    (signals : List Signal) (trades : List Trade) (eqc : List Rat)
    (hsorted : data.Pairwise (fun a b => a.timestamp ≤ b.timestamp))
    (h : execute_trades cfg data signals = .ok (trades, eqc)) :
    ∀ t ∈ trades, ∃ x, t.exit_time = some x ∧ t.entry_time ≤ x := by
  unfold execute_trades at h
  split at h
  · exact absurd h (by simp)
  · injection h with h'
    injection h' with h1 h2
    rw [← h1]
    refine foldl_processBar_good cfg (sortSignals signals)
      (sortSignals_sorted signals) data _ hsorted ?_ ?_
    · intro t ht; cases ht
    · intro hq; exact absurd hq (by norm_num)

/-- The single trade produced by the concrete cost-free Buy/Sell run. -/
def cexTradeAB : Trade :=
  { id := 0, entry_time := 1, exit_time := some 2, entry_price := 100
    exit_price := some 100, quantity := 19 / 2, pnl := some 0, commission := 0 }

/-- Witness for `trade_exit_ge_entry` on a concrete two-bar run. -/
theorem trade_exit_ge_entry_witness :
    ∃ x, cexTradeAB.exit_time = some x ∧ cexTradeAB.entry_time ≤ x := by
  refine trade_exit_ge_entry cexCfg0 [cexBarA, cexBarB] [cexBuy1, cexSell2]
    [cexTradeAB] [1000, 1000] ?_ ?_ cexTradeAB (by simp)
  · norm_num [List.pairwise_cons, cexBarA, cexBarB]
  · norm_num [execute_trades, sortSignals, List.insertionSort, List.orderedInsert,
      sigLe, processBar, processSignal, cexCfg0, cexBarA, cexBarB, cexBuy1,
      cexSell2, cexTradeAB, Trade.mk.injEq]

/-- C6 counterexample: a Buy and a Sell at the same timestamp on a single bar
produce a trade with `exit_ts = entry_ts = 1`, refuting the strict
`exit_ts > entry_ts`. -/
theorem trade_exit_eq_entry_counterexample :
    (execute_trades cexCfg0 [cexBarA] [cexBuy1, cexSell1]).map
        (fun p => p.1.map (fun t => (t.entry_time, t.exit_time))) =
      .ok [(1, some 1)] ∧
    ¬ ((1 : Nat) < 1) := by
  refine ⟨?_, by norm_num⟩
  norm_num [execute_trades, sortSignals, List.insertionSort, List.orderedInsert,
    sigLe, processBar, processSignal, Except.map, cexCfg0, cexBarA, cexBuy1,
    cexSell1]

/-- Membership in the combination list of a non-empty range list. -/
theorem mem_genCombos_cons (name : String) (r : Rat × Rat × Rat)
    (rest : List (String × (Rat × Rat × Rat))) (c : List (String × Rat)) :
    c ∈ genCombos ((name, r) :: rest) ↔
      ∃ v ∈ rangeValues r.1 r.2.1 r.2.2, ∃ c1 ∈ genCombos rest,
        c = (name, v) :: c1 := by
  simp [genCombos, eq_comm]

/-- Re-ordering the parameter ranges (the unspecified `HashMap` key order)
re-orders each enumerated combination but enumerates the same tuples: every
combination of the first order has a permutation among the combinations of
the second order. -/
theorem genCombos_perm_exists
    {r1 r2 : List (String × (Rat × Rat × Rat))} (hperm : r1.Perm r2) :
    ∀ c ∈ genCombos r1, ∃ c', c' ∈ genCombos r2 ∧ c.Perm c' := by
  induction hperm with
  | nil => intro c hc; exact ⟨c, hc, List.Perm.refl c⟩
  | cons x h ih =>
    obtain ⟨name, r⟩ := x
    intro c hc
    obtain ⟨v, hv, c1, hc1, rfl⟩ := (mem_genCombos_cons name r _ c).mp hc
    obtain ⟨c1', hc1', hp⟩ := ih c1 hc1
    exact ⟨(name, v) :: c1',
      (mem_genCombos_cons name r _ _).mpr ⟨v, hv, c1', hc1', rfl⟩, hp.cons _⟩
  | swap x y l =>
    obtain ⟨nx, rx⟩ := x
    obtain ⟨ny, ry⟩ := y
    intro c hc
    obtain ⟨vy, hvy, c1, hc1, rfl⟩ := (mem_genCombos_cons ny ry _ c).mp hc
    obtain ⟨vx, hvx, c2, hc2, rfl⟩ := (mem_genCombos_cons nx rx _ c1).mp hc1
    refine ⟨(nx, vx) :: (ny, vy) :: c2, ?_, List.Perm.swap _ _ _⟩
    exact (mem_genCombos_cons nx rx _ _).mpr
      ⟨vx, hvx, (ny, vy) :: c2,
        (mem_genCombos_cons ny ry _ _).mpr ⟨vy, hvy, c2, hc2, rfl⟩, rfl⟩
  | trans h12 h23 ih12 ih23 =>
    intro c hc
    obtain ⟨c', hc', hp'⟩ := ih12 c hc
    obtain ⟨c'', hc'', hp''⟩ := ih23 c' hc'
    exact ⟨c'', hc'', hp'.trans hp''⟩

/-- C9 (corrected): two optimisation runs over the same ranges presented in
different (hash-determined) key orders evaluate the same set of parameter
tuples with the same scores — every scored tuple of one run appears in the
other with permuted bindings and an equal score — provided the score is a
function of the tuple (invariant under binding re-ordering) and the grid is
within the 10000-combination cap.  The *best* tuple, however, is not stable
across key orders when the maximal score ties (see the counterexample). -/
theorem optimize_score_set_perm_invariant
    (score : List (String × Rat) → Rat)
    (hscore : ∀ a b : List (String × Rat), a.Perm b → score a = score b)
    (r1 r2 : List (String × (Rat × Rat × Rat))) (hperm : r1.Perm r2)
    (hlen1 : (genCombos r1).length ≤ 10000)
    (hlen2 : (genCombos r2).length ≤ 10000)
    (o1 o2 : OptimizationResult)
    (h1 : optimize score r1 = .ok o1) (h2 : optimize score r2 = .ok o2) :
    ∀ p ∈ o1.all_parameters, ∃ q ∈ o2.all_parameters,
      p.values.Perm q.values ∧ p.score = q.score := by
  obtain ⟨e1, -⟩ := optimize_ok_elim score r1 o1 h1
  obtain ⟨e2, -⟩ := optimize_ok_elim score r2 o2 h2
  rw [List.take_of_length_le hlen1] at e1
  rw [List.take_of_length_le hlen2] at e2
  intro p hp
  rw [e1] at hp
  obtain ⟨c, hc, rfl⟩ := List.mem_map.mp hp
  obtain ⟨c', hc', hcp⟩ := genCombos_perm_exists hperm c hc
  refine ⟨evaluate_parameters score c', ?_, hcp, ?_⟩
  · rw [e2]
    exact List.mem_map.mpr ⟨c', hc', rfl⟩
  · simpa [evaluate_parameters] using hscore c c' hcp

/-- Order-insensitive score: the sum of all parameter values. -/
def cexSumScore : List (String × Rat) → Rat := fun m => (m.map (fun x => x.2)).sum

/-- A degenerate one-value range enumerates its single value. -/
theorem rangeValues_single (v : Rat) : rangeValues v v 1 = [v] := by
  unfold rangeValues
  rw [if_pos ⟨by norm_num, le_rfl⟩]
  have h0 : ((v - v) / 1 : Rat) = 0 := by norm_num
  rw [h0, Int.floor_zero]
  norm_num [List.range_succ, List.range_zero]

/-- Result of the sum-score run with key order `a, b`. -/
def cexOptA : OptimizationResult :=
  { best_parameters := { values := [("a", 1), ("b", 2)], score := 3 }
    all_parameters := [{ values := [("a", 1), ("b", 2)], score := 3 }]
    total_combinations := 1 }

/-- Result of the sum-score run with key order `b, a`. -/
def cexOptB : OptimizationResult :=
  { best_parameters := { values := [("b", 2), ("a", 1)], score := 3 }
    all_parameters := [{ values := [("b", 2), ("a", 1)], score := 3 }]
    total_combinations := 1 }

/-- Concrete evaluation of the sum-score run, key order `a, b`. -/
theorem optimize_sum_eval_ab :
    optimize cexSumScore [("a", (1, 1, 1)), ("b", (2, 2, 1))] = .ok cexOptA := by
  have hcombos : genCombos [("a", (1, 1, 1)), ("b", (2, 2, 1))] =
      [[("a", 1), ("b", 2)]] := by
    simp [genCombos, rangeValues_single]
  unfold optimize
  rw [if_neg (by simp)]
  dsimp only
  rw [hcombos, List.take_of_length_le (by norm_num)]
  norm_num [evaluate_parameters, maxByScore, maxStep, cexSumScore, cexOptA,
    List.foldl]

/-- Concrete evaluation of the sum-score run, key order `b, a`. -/
theorem optimize_sum_eval_ba :
    optimize cexSumScore [("b", (2, 2, 1)), ("a", (1, 1, 1))] = .ok cexOptB := by
  have hcombos : genCombos [("b", (2, 2, 1)), ("a", (1, 1, 1))] =
      [[("b", 2), ("a", 1)]] := by
    simp [genCombos, rangeValues_single]
  unfold optimize
  rw [if_neg (by simp)]
  dsimp only
  rw [hcombos, List.take_of_length_le (by norm_num)]
  norm_num [evaluate_parameters, maxByScore, maxStep, cexSumScore, cexOptB,
    List.foldl]

/-- Witness for `optimize_score_set_perm_invariant` on the sum-score runs. -/
theorem optimize_score_set_perm_invariant_witness :
    ∃ q ∈ cexOptB.all_parameters,
      ([("a", (1 : Rat)), ("b", 2)]).Perm q.values ∧ (3 : Rat) = q.score := by
  have h := optimize_score_set_perm_invariant cexSumScore
    (fun a b hp => by simpa [cexSumScore] using (hp.map (fun x => x.2)).sum_eq)
    [("a", (1, 1, 1)), ("b", (2, 2, 1))] [("b", (2, 2, 1)), ("a", (1, 1, 1))]
    (List.Perm.swap ("b", (2, 2, 1)) ("a", (1, 1, 1)) [])
    (by rw [show genCombos [("a", (1, 1, 1)), ("b", (2, 2, 1))] =
          [[("a", 1), ("b", 2)]] from by simp [genCombos, rangeValues_single]]
        norm_num)
    (by rw [show genCombos [("b", (2, 2, 1)), ("a", (1, 1, 1))] =
          [[("b", 2), ("a", 1)]] from by simp [genCombos, rangeValues_single]]
        norm_num)
    cexOptA cexOptB optimize_sum_eval_ab optimize_sum_eval_ba
  simpa [cexOptA] using h { values := [("a", 1), ("b", 2)], score := 3 }
    (by simp [cexOptA])

/-- Tie-making score: 1 on the two mixed tuples, 0 elsewhere. -/
def cexTieScore : List (String × Rat) → Rat := fun m =>
  if (m.lookup "a" = some 1 ∧ m.lookup "b" = some 2) ∨
      (m.lookup "a" = some 2 ∧ m.lookup "b" = some 1) then 1 else 0

/-- C9 counterexample: with the tie-making score the two key orders (legal
iteration orders of the same `HashMap`) return *different* best tuples —
`a = 2` in one run and `a = 1` in the other — because `max_by` keeps the last
maximal element of an order-dependent enumeration. -/
theorem optimize_best_order_dependent_counterexample :
    (optimize cexTieScore [("a", (1, 2, 1)), ("b", (1, 2, 1))]).map
        (fun r => r.best_parameters.values.lookup "a") = .ok (some 2) ∧
    (optimize cexTieScore [("b", (1, 2, 1)), ("a", (1, 2, 1))]).map
        (fun r => r.best_parameters.values.lookup "a") = .ok (some 1) ∧
    ¬ ((some (2 : Rat)) = some 1) := by
  have hcombos1 : genCombos [("a", (1, 2, 1)), ("b", (1, 2, 1))] =
      [[("a", 1), ("b", 1)], [("a", 1), ("b", 2)],
        [("a", 2), ("b", 1)], [("a", 2), ("b", 2)]] := by
    simp [genCombos, rangeValues_one_two]
  have hcombos2 : genCombos [("b", (1, 2, 1)), ("a", (1, 2, 1))] =
      [[("b", 1), ("a", 1)], [("b", 1), ("a", 2)],
        [("b", 2), ("a", 1)], [("b", 2), ("a", 2)]] := by
    simp [genCombos, rangeValues_one_two]
  refine ⟨?_, ?_, by norm_num⟩
  · unfold optimize
    rw [if_neg (by simp)]
    dsimp only
    rw [hcombos1, List.take_of_length_le (by norm_num)]
    simp +decide [evaluate_parameters, maxByScore, maxStep, cexTieScore,
      List.lookup, Except.map, List.foldl]
  · unfold optimize
    rw [if_neg (by simp)]
    dsimp only
    rw [hcombos2, List.take_of_length_le (by norm_num)]
    simp +decide [evaluate_parameters, maxByScore, maxStep, cexTieScore,
      List.lookup, Except.map, List.foldl]
